import Mathlib

/-!
Verification of `src/pc/jsep_transport_collection.cc` (webrtc).

The file defines two components:

* `BundleManager` — owns a list of `ContentGroup`s (bundle groups), each an
  ordered list of mids; groups are identified by pointer identity, modelled
  here as an `id : Nat` handle.
* `JsepTransportCollection` — owns transports keyed by name
  (`jsep_transports_by_name_`, a `std::map<std::string, unique_ptr<JsepTransport>>`),
  keeps a mid → transport association (`mid_to_transport_`, raw pointers into
  the owned map) and a pending-mid log (`pending_mids_`) that supports rollback.

Transports are opaque; we model a transport by an identity token `Nat`
(pointer identity in the source).  The two injected callbacks
(`map_change_callback_ : (mid, JsepTransport*) → bool` and
`state_change_callback_ : () → void`) execute inline and do not touch the
registry's own state; we model the map-change callback as a pure function
`String → Option Nat → Bool` passed to each operation, and we record every
callback invocation (arguments and result) in an event trace so that claims
about callback behaviour can be stated.

`std::map` has unique keys; we model both maps as association lists
(`List (String × Nat)`) together with the operations the source uses
(`find`, `operator[]`/insert-through-iterator, `erase`), and state the
unique-key fact (`NoDupKeys`) explicitly where a proof needs it.
-/

/-- One observable callback invocation of the registry.
`mapChange key transport result` records a call of `map_change_callback_`
(`transport = none` models the `nullptr` argument, `result` its returned
bool); `stateChange` records a call of the zero-argument
`state_change_callback_`. -/
inductive Event where
  | mapChange (key : String) (transport : Option Nat) (result : Bool)
  | stateChange
deriving DecidableEq, Repr

/-- The injected `map_change_callback_`: pure model of
`std::function<bool(const std::string&, cricket::JsepTransport*)>`. -/
abbrev MapChangeCallback := String → Option Nat → Bool

/-- `std::map::find` (value part): the value of the entry with the given key. -/
def mapLookup (k : String) : List (String × Nat) → Option Nat
  | [] => none
  | p :: rest => if p.1 = k then some p.2 else mapLookup k rest

/-- `map.find(k) != map.end()`. -/
def mapContains (k : String) (l : List (String × Nat)) : Bool :=
  (mapLookup k l).isSome

/-- Insert-or-update with the given key, as done by `operator[]` followed by
assignment, or by `find` followed by `insert` / `it->second = v`. -/
def mapInsert (k : String) (v : Nat) : List (String × Nat) → List (String × Nat)
  | [] => [(k, v)]
  | p :: rest => if p.1 = k then (p.1, v) :: rest else p :: mapInsert k v rest

/-- `std::map::erase(k)`: removes the entry with the given key (a no-op when
the key is absent). -/
def mapErase (k : String) : List (String × Nat) → List (String × Nat)
  | [] => []
  | p :: rest => if p.1 = k then rest else p :: mapErase k rest

/-- Unique keys — always true of a `std::map`. -/
def NoDupKeys (l : List (String × Nat)) : Prop :=
  (l.map Prod.fst).Nodup

instance NoDupKeys.decidable (l : List (String × Nat)) : Decidable (NoDupKeys l) :=
  inferInstanceAs (Decidable ((l.map Prod.fst).Nodup))

/-- State of `JsepTransportCollection`: the owned-transport map, the
mid → transport association, and the pending-mid log. -/
structure JsepTransportCollection where
  jsep_transports_by_name : List (String × Nat)
  mid_to_transport : List (String × Nat)
  pending_mids : List String
deriving DecidableEq, Repr

namespace JsepTransportCollection

/-- `JsepTransportCollection::RegisterTransport`:
`jsep_transports_by_name_[mid] = std::move(transport)`. -/
def RegisterTransport (s : JsepTransportCollection) (mid : String) (transport : Nat) :
    JsepTransportCollection :=
  { s with jsep_transports_by_name := mapInsert mid transport s.jsep_transports_by_name }

/-- `JsepTransportCollection::Transports`: the owned transports in map order. -/
def Transports (s : JsepTransportCollection) : List Nat :=
  s.jsep_transports_by_name.map Prod.snd

/-- `JsepTransportCollection::DestroyAllTransports`: calls
`map_change_callback_(name, nullptr)` for every owned transport, then clears
`jsep_transports_by_name_` (note: `mid_to_transport_` is not touched). -/
def DestroyAllTransports (cb : MapChangeCallback) (s : JsepTransportCollection) :
    JsepTransportCollection × List Event :=
  ({ s with jsep_transports_by_name := [] },
   s.jsep_transports_by_name.map (fun p => Event.mapChange p.1 none (cb p.1 none)))

/-- `JsepTransportCollection::GetTransportByName` (both overloads): pure lookup. -/
def GetTransportByName (s : JsepTransportCollection) (transport_name : String) : Option Nat :=
  mapLookup transport_name s.jsep_transports_by_name

/-- `JsepTransportCollection::GetTransportForMid` (both overloads): pure lookup. -/
def GetTransportForMid (s : JsepTransportCollection) (mid : String) : Option Nat :=
  mapLookup mid s.mid_to_transport

/-- `JsepTransportCollection::SetTransportForMid`: if `mid` is already mapped
to exactly this transport, a no-op returning `true`; otherwise append `mid` to
`pending_mids_`, insert-or-update the `mid_to_transport_` entry, and return
the result of `map_change_callback_(mid, jsep_transport)`. -/
def SetTransportForMid (cb : MapChangeCallback) (s : JsepTransportCollection)
    (mid : String) (jsep_transport : Nat) :
    JsepTransportCollection × List Event × Bool :=
  if mapLookup mid s.mid_to_transport = some jsep_transport then
    (s, [], true)
  else
    ({ s with
        pending_mids := s.pending_mids ++ [mid],
        mid_to_transport := mapInsert mid jsep_transport s.mid_to_transport },
     [Event.mapChange mid (some jsep_transport) (cb mid (some jsep_transport))],
     cb mid (some jsep_transport))

/-- The `RTC_DCHECK(jsep_transport)` contract of `SetTransportForMid`: the
transport argument must be non-null (`none` models `nullptr`); a `none`
argument is a contract violation, modelled as the `none` outcome. -/
def SetTransportForMidChecked (cb : MapChangeCallback) (s : JsepTransportCollection)
    (mid : String) (jsep_transport : Option Nat) :
    Option (JsepTransportCollection × List Event × Bool) :=
  match jsep_transport with
  | none => none
  | some t => some (SetTransportForMid cb s mid t)

/-- `JsepTransportCollection::RemoveTransportForMid`: calls
`map_change_callback_(mid, nullptr)` (the source `RTC_DCHECK`s that the
result is true but proceeds in release builds), then erases the
`mid_to_transport_` entry for `mid`.  Note: `pending_mids_` is not touched. -/
def RemoveTransportForMid (cb : MapChangeCallback) (s : JsepTransportCollection)
    (mid : String) : JsepTransportCollection × List Event :=
  ({ s with mid_to_transport := mapErase mid s.mid_to_transport },
   [Event.mapChange mid none (cb mid none)])

/-- `JsepTransportCollection::TransportInUse`: true iff some
`mid_to_transport_` entry references this transport. -/
def TransportInUse (s : JsepTransportCollection) (jsep_transport : Nat) : Bool :=
  s.mid_to_transport.any (fun p => p.2 == jsep_transport)

/-- `JsepTransportCollection::MaybeDestroyJsepTransport`: look up the owned
transport registered under the name `mid`; no-op when absent; no-op when it
is still in use; otherwise erase it from `jsep_transports_by_name_` and call
`state_change_callback_()`. -/
def MaybeDestroyJsepTransport (s : JsepTransportCollection) (mid : String) :
    JsepTransportCollection × List Event :=
  match mapLookup mid s.jsep_transports_by_name with
  | none => (s, [])
  | some t =>
    if TransportInUse s t then
      (s, [])
    else
      ({ s with jsep_transports_by_name := mapErase mid s.jsep_transports_by_name },
       [Event.stateChange])

/-- Run `step` once for every mid of the list, in order, threading the state
and concatenating the emitted events (a `for (auto&& mid : mids)` loop). -/
def runPhase (step : JsepTransportCollection → String → JsepTransportCollection × List Event)
    (s : JsepTransportCollection) : List String → JsepTransportCollection × List Event
  | [] => (s, [])
  | m :: rest =>
    let r := step s m
    let r2 := runPhase step r.1 rest
    (r2.1, r.2 ++ r2.2)

/-- `JsepTransportCollection::RollbackTransports`: first
`RemoveTransportForMid` for every pending mid in order, then
`MaybeDestroyJsepTransport` for every pending mid in order, then clear
`pending_mids_`. -/
def RollbackTransports (cb : MapChangeCallback) (s : JsepTransportCollection) :
    JsepTransportCollection × List Event :=
  let p1 := runPhase (fun st m => RemoveTransportForMid cb st m) s s.pending_mids
  let p2 := runPhase (fun st m => MaybeDestroyJsepTransport st m) p1.1 p1.1.pending_mids
  ({ p2.1 with pending_mids := [] }, p1.2 ++ p2.2)

/-- `JsepTransportCollection::CommitTransports`: clears `pending_mids_`.
The body makes no callback call, hence the empty trace. -/
def CommitTransports (s : JsepTransportCollection) : JsepTransportCollection × List Event :=
  ({ s with pending_mids := [] }, [])

end JsepTransportCollection

/-- The spec's invariant on the registry: every transport referenced as a
value of `mid_to_transport_` is a transport currently present in
`jsep_transports_by_name_`. -/
def MapInv (s : JsepTransportCollection) : Prop :=
  ∀ p ∈ s.mid_to_transport, ∃ q ∈ s.jsep_transports_by_name, q.2 = p.2

instance MapInv.decidable (s : JsepTransportCollection) : Decidable (MapInv s) :=
  inferInstanceAs
    (Decidable (∀ p ∈ s.mid_to_transport, ∃ q ∈ s.jsep_transports_by_name, q.2 = p.2))

/-- One call of the transaction sequence considered by the rollback claims:
either `SetTransportForMid(mid, t)` or `RemoveTransportForMid(mid)`. -/
inductive TransportOp where
  | set (mid : String) (t : Nat)
  | remove (mid : String)
deriving DecidableEq, Repr

/-- The mid an operation touches. -/
def TransportOp.mid : TransportOp → String
  | .set m _ => m
  | .remove m => m

/-- Apply one `TransportOp` to the registry (the returned bool and the event
trace of the call are dropped; they do not influence the registry state). -/
def applyOp (cb : MapChangeCallback) (s : JsepTransportCollection) :
    TransportOp → JsepTransportCollection
  | .set m t => (s.SetTransportForMid cb m t).1
  | .remove m => (s.RemoveTransportForMid cb m).1

/-- Apply a sequence of `TransportOp`s in order. -/
def applyOps (cb : MapChangeCallback) (s : JsepTransportCollection) :
    List TransportOp → JsepTransportCollection
  | [] => s
  | op :: rest => applyOps cb (applyOp cb s op) rest

/-- A map-change callback that accepts everything. -/
def cbTrue : MapChangeCallback := fun _ _ => true

section MapLemmas

@[simp]
theorem mapLookup_mapInsert_self (k : String) (v : Nat) (l : List (String × Nat)) :
    mapLookup k (mapInsert k v l) = some v := by
  induction l with
  | nil => simp [mapInsert, mapLookup]
  | cons p rest ih =>
    by_cases h : p.1 = k
    · simp [mapInsert, mapLookup, h]
    · simp [mapInsert, mapLookup, h, ih]

theorem noDupKeys_cons {p : String × Nat} {rest : List (String × Nat)} :
    NoDupKeys (p :: rest) ↔ p.1 ∉ rest.map Prod.fst ∧ NoDupKeys rest := by
  unfold NoDupKeys
  rw [List.map_cons, List.nodup_cons]

theorem mapLookup_eq_none_iff (k : String) (l : List (String × Nat)) :
    mapLookup k l = none ↔ k ∉ l.map Prod.fst := by
  induction l with
  | nil => simp [mapLookup]
  | cons p rest ih =>
    by_cases hp : p.1 = k
    · subst hp
      simp [mapLookup]
    · simp only [mapLookup, if_neg hp, List.map_cons, List.mem_cons, ih]
      constructor
      · rintro hnone hmem
        rcases hmem with h1 | h2
        · exact hp h1.symm
        · exact hnone h2
      · intro hmem h2
        exact hmem (Or.inr h2)

theorem mapLookup_mapInsert_ne (k k' : String) (v : Nat) (l : List (String × Nat))
    (h : k' ≠ k) : mapLookup k' (mapInsert k v l) = mapLookup k' l := by
  have hkk : ¬ k = k' := fun hk => h hk.symm
  induction l with
  | nil => simp [mapInsert, mapLookup, hkk]
  | cons p rest ih =>
    by_cases hp : p.1 = k
    · subst hp
      simp [mapInsert, mapLookup, hkk]
    · by_cases hq : p.1 = k'
      · simp [mapInsert, mapLookup, hp, hq, h, hkk]
      · simp [mapInsert, mapLookup, hp, hq, ih]

theorem mapLookup_mapErase_ne (k k' : String) (l : List (String × Nat))
    (h : k' ≠ k) : mapLookup k' (mapErase k l) = mapLookup k' l := by
  have hkk : ¬ k = k' := fun hk => h hk.symm
  induction l with
  | nil => simp [mapErase]
  | cons p rest ih =>
    by_cases hp : p.1 = k
    · subst hp
      simp [mapErase, mapLookup, hkk]
    · by_cases hq : p.1 = k'
      · simp [mapErase, mapLookup, hp, hq, h, hkk]
      · simp [mapErase, mapLookup, hp, hq, ih]

theorem mapErase_of_lookup_none (k : String) (l : List (String × Nat))
    (h : mapLookup k l = none) : mapErase k l = l := by
  induction l with
  | nil => simp [mapErase]
  | cons p rest ih =>
    by_cases hp : p.1 = k
    · simp [mapLookup, hp] at h
    · simp [mapLookup, hp] at h
      simp [mapErase, hp, ih h]

theorem mapLookup_none_mapErase (k k' : String) (l : List (String × Nat))
    (h : mapLookup k l = none) : mapLookup k (mapErase k' l) = none := by
  induction l with
  | nil => simp [mapErase, mapLookup]
  | cons p rest ih =>
    by_cases hp : p.1 = k
    · simp [mapLookup, hp] at h
    · simp only [mapLookup, if_neg hp] at h
      by_cases hq : p.1 = k'
      · simpa [mapErase, hq] using h
      · simp [mapErase, mapLookup, hq, hp, ih h]

theorem keys_mapErase_sublist (k : String) (l : List (String × Nat)) :
    ((mapErase k l).map Prod.fst).Sublist (l.map Prod.fst) := by
  induction l with
  | nil => simp [mapErase]
  | cons p rest ih =>
    by_cases hp : p.1 = k
    · rw [mapErase, if_pos hp, List.map_cons]
      exact List.Sublist.cons p.1 (List.Sublist.refl _)
    · rw [mapErase, if_neg hp, List.map_cons, List.map_cons]
      exact List.Sublist.cons₂ p.1 ih

theorem NoDupKeys.mapErase (k : String) (l : List (String × Nat))
    (h : NoDupKeys l) : NoDupKeys (mapErase k l) :=
  List.Nodup.sublist (keys_mapErase_sublist k l) h

theorem keys_mapInsert (k : String) (v : Nat) (l : List (String × Nat)) :
    (mapInsert k v l).map Prod.fst = l.map Prod.fst
      ∨ ((mapInsert k v l).map Prod.fst = l.map Prod.fst ++ [k]
          ∧ mapLookup k l = none) := by
  induction l with
  | nil => right; simp [mapInsert, mapLookup]
  | cons p rest ih =>
    by_cases hp : p.1 = k
    · left; simp [mapInsert, hp]
    · rcases ih with h | ⟨h1, h2⟩
      · left; simp [mapInsert, hp, h]
      · right; simp [mapInsert, mapLookup, hp, h1, h2]

theorem NoDupKeys.mapInsert (k : String) (v : Nat) (l : List (String × Nat))
    (h : NoDupKeys l) : NoDupKeys (mapInsert k v l) := by
  rcases keys_mapInsert k v l with heq | ⟨heq, hnone⟩
  · unfold NoDupKeys
    rw [heq]
    exact h
  · unfold NoDupKeys
    rw [heq, List.nodup_append]
    refine ⟨h, List.nodup_singleton k, ?_⟩
    intro a ha hb
    rw [List.mem_singleton] at hb
    subst hb
    exact (mapLookup_eq_none_iff a l).mp hnone ha

theorem mapLookup_mapErase_self (k : String) (l : List (String × Nat))
    (h : NoDupKeys l) : mapLookup k (mapErase k l) = none := by
  induction l with
  | nil => simp [mapErase, mapLookup]
  | cons p rest ih =>
    rcases noDupKeys_cons.mp h with ⟨hnot, htail⟩
    by_cases hp : p.1 = k
    · subst hp
      simp only [mapErase, if_pos rfl]
      exact (mapLookup_eq_none_iff p.1 rest).mpr hnot
    · simp [mapErase, mapLookup, hp, ih htail]

theorem mem_of_mem_mapErase {q : String × Nat} (k : String) (l : List (String × Nat))
    (h : q ∈ mapErase k l) : q ∈ l := by
  induction l with
  | nil => simp [mapErase] at h
  | cons p rest ih =>
    by_cases hp : p.1 = k
    · simp [mapErase, hp] at h
      exact List.mem_cons_of_mem _ h
    · rcases List.mem_cons.mp (by simpa [mapErase, hp] using h) with rfl | h'
      · exact List.mem_cons_self _ _
      · exact List.mem_cons_of_mem _ (ih h')

theorem mem_mapErase_of_lookup_ne {q : String × Nat} (k : String) (l : List (String × Nat))
    (t : Nat) (hq : q ∈ l) (hl : mapLookup k l = some t) (hne : q.2 ≠ t) :
    q ∈ mapErase k l := by
  induction l with
  | nil => simp at hq
  | cons p rest ih =>
    by_cases hp : p.1 = k
    · simp [mapLookup, hp] at hl
      rcases List.mem_cons.mp hq with rfl | h'
      · exact absurd (hl ▸ rfl) hne
      · simpa [mapErase, hp] using h'
    · simp [mapLookup, hp] at hl
      rcases List.mem_cons.mp hq with rfl | h'
      · simp [mapErase, hp]
      · simp [mapErase, hp]
        exact Or.inr (ih h' hl)

theorem mem_mapInsert {q : String × Nat} (k : String) (v : Nat) (l : List (String × Nat))
    (h : q ∈ mapInsert k v l) : q ∈ l ∨ q.2 = v := by
  induction l with
  | nil => simp [mapInsert] at h; simp [h]
  | cons p rest ih =>
    by_cases hp : p.1 = k
    · rcases List.mem_cons.mp (by simpa [mapInsert, hp] using h) with rfl | h'
      · right; rfl
      · left; exact List.mem_cons_of_mem _ h'
    · rcases List.mem_cons.mp (by simpa [mapInsert, hp] using h) with rfl | h'
      · left; exact List.mem_cons_self _ _
      · rcases ih h' with hh | hh
        · left; exact List.mem_cons_of_mem _ hh
        · right; exact hh

theorem mem_mapInsert_of_not_contains {q : String × Nat} (k : String) (v : Nat)
    (l : List (String × Nat)) (hc : mapContains k l = false) (hq : q ∈ l) :
    q ∈ mapInsert k v l := by
  induction l with
  | nil => simp at hq
  | cons p rest ih =>
    simp [mapContains, mapLookup] at hc
    by_cases hp : p.1 = k
    · simp [hp] at hc
    · rcases List.mem_cons.mp hq with rfl | h'
      · simp [mapInsert, hp]
      · simp [mapInsert, hp]
        right
        exact ih (by simpa [mapContains, hp] using hc) h'

theorem mapContains_mapInsert {m k : String} {v : Nat} {l : List (String × Nat)}
    (h : mapContains m l = true) : mapContains m (mapInsert k v l) = true := by
  by_cases hm : m = k
  · subst hm; simp [mapContains]
  · simpa [mapContains, mapLookup_mapInsert_ne k m v l hm] using h

theorem mapLookup_some_mem {k : String} {t : Nat} {l : List (String × Nat)}
    (h : mapLookup k l = some t) : (k, t) ∈ l := by
  induction l with
  | nil => simp [mapLookup] at h
  | cons p rest ih =>
    by_cases hp : p.1 = k
    · simp only [mapLookup, if_pos hp, Option.some.injEq] at h
      have hpk : (k, t) = p := by
        obtain ⟨a, b⟩ := p
        simp only at hp h
        simp [hp, h]
      rw [hpk]
      exact List.mem_cons_self _ _
    · simp only [mapLookup, if_neg hp] at h
      exact List.mem_cons_of_mem _ (ih h)

theorem mapErase_length (k : String) (l : List (String × Nat))
    (h : mapLookup k l ≠ none) : (mapErase k l).length + 1 = l.length := by
  induction l with
  | nil => simp [mapLookup] at h
  | cons p rest ih =>
    by_cases hp : p.1 = k
    · simp [mapErase, hp]
    · simp only [mapLookup, if_neg hp] at h
      simp [mapErase, hp, ih h]

end MapLemmas

section OperationLemmas

open JsepTransportCollection

/-- Erase every key of the list in order (the cumulative effect of phase 1 of
`RollbackTransports` on `mid_to_transport_`). -/
def eraseAll : List String → List (String × Nat) → List (String × Nat)
  | [], l => l
  | m :: rest, l => eraseAll rest (mapErase m l)

theorem mapLookup_none_eraseAll (mids : List String) (m : String)
    (l : List (String × Nat)) (h : mapLookup m l = none) :
    mapLookup m (eraseAll mids l) = none := by
  induction mids generalizing l with
  | nil => exact h
  | cons a rest ih => exact ih _ (mapLookup_none_mapErase m a l h)

theorem noDupKeys_eraseAll (mids : List String) (l : List (String × Nat))
    (h : NoDupKeys l) : NoDupKeys (eraseAll mids l) := by
  induction mids generalizing l with
  | nil => exact h
  | cons a rest ih => exact ih _ (NoDupKeys.mapErase a l h)

theorem mapLookup_eraseAll (mids : List String) (l : List (String × Nat))
    (m : String) (h : NoDupKeys l) :
    mapLookup m (eraseAll mids l) = if m ∈ mids then none else mapLookup m l := by
  induction mids generalizing l with
  | nil => simp [eraseAll]
  | cons a rest ih =>
    by_cases hm : m = a
    · subst hm
      rw [if_pos (List.mem_cons_self m rest)]
      exact mapLookup_none_eraseAll rest m _ (mapLookup_mapErase_self m l h)
    · rw [eraseAll, ih (mapErase a l) (NoDupKeys.mapErase a l h),
        mapLookup_mapErase_ne a m l hm]
      by_cases hr : m ∈ rest
      · simp [hr]
      · simp [hr, hm]

@[simp]
theorem RemoveTransportForMid_pending (cb : MapChangeCallback)
    (s : JsepTransportCollection) (mid : String) :
    (RemoveTransportForMid cb s mid).1.pending_mids = s.pending_mids := rfl

@[simp]
theorem RemoveTransportForMid_jsep (cb : MapChangeCallback)
    (s : JsepTransportCollection) (mid : String) :
    (RemoveTransportForMid cb s mid).1.jsep_transports_by_name
      = s.jsep_transports_by_name := rfl

theorem MaybeDestroyJsepTransport_mid_to_transport (s : JsepTransportCollection)
    (mid : String) :
    (MaybeDestroyJsepTransport s mid).1.mid_to_transport = s.mid_to_transport := by
  cases hl : mapLookup mid s.jsep_transports_by_name with
  | none => simp [MaybeDestroyJsepTransport, hl]
  | some t =>
    by_cases h : TransportInUse s t
    · simp [MaybeDestroyJsepTransport, hl, h]
    · simp [MaybeDestroyJsepTransport, hl, h]

theorem MaybeDestroyJsepTransport_pending (s : JsepTransportCollection)
    (mid : String) :
    (MaybeDestroyJsepTransport s mid).1.pending_mids = s.pending_mids := by
  cases hl : mapLookup mid s.jsep_transports_by_name with
  | none => simp [MaybeDestroyJsepTransport, hl]
  | some t =>
    by_cases h : TransportInUse s t
    · simp [MaybeDestroyJsepTransport, hl, h]
    · simp [MaybeDestroyJsepTransport, hl, h]

theorem runPhase_remove_fst (cb : MapChangeCallback) (s : JsepTransportCollection)
    (mids : List String) :
    (runPhase (fun st m => RemoveTransportForMid cb st m) s mids).1
      = { s with mid_to_transport := eraseAll mids s.mid_to_transport } := by
  induction mids generalizing s with
  | nil => rfl
  | cons m rest ih =>
    rw [runPhase]
    exact ih { s with mid_to_transport := mapErase m s.mid_to_transport }

theorem runPhase_remove_trace (cb : MapChangeCallback) (s : JsepTransportCollection)
    (mids : List String) :
    (runPhase (fun st m => RemoveTransportForMid cb st m) s mids).2
      = mids.map (fun m => Event.mapChange m none (cb m none)) := by
  induction mids generalizing s with
  | nil => rfl
  | cons m rest ih =>
    rw [runPhase, List.map_cons, ih]
    rfl

theorem runPhase_destroy_mid_to_transport (s : JsepTransportCollection)
    (mids : List String) :
    (runPhase (fun st m => MaybeDestroyJsepTransport st m) s mids).1.mid_to_transport
      = s.mid_to_transport := by
  induction mids generalizing s with
  | nil => rfl
  | cons m rest ih =>
    rw [runPhase]
    rw [ih]
    exact MaybeDestroyJsepTransport_mid_to_transport s m

theorem runPhase_destroy_pending (s : JsepTransportCollection) (mids : List String) :
    (runPhase (fun st m => MaybeDestroyJsepTransport st m) s mids).1.pending_mids
      = s.pending_mids := by
  induction mids generalizing s with
  | nil => rfl
  | cons m rest ih =>
    rw [runPhase]
    rw [ih]
    exact MaybeDestroyJsepTransport_pending s m

theorem RollbackTransports_mid_to_transport (cb : MapChangeCallback)
    (s : JsepTransportCollection) :
    (RollbackTransports cb s).1.mid_to_transport
      = eraseAll s.pending_mids s.mid_to_transport := by
  unfold RollbackTransports
  simp only [runPhase_remove_fst]
  exact runPhase_destroy_mid_to_transport _ _

@[simp]
theorem RollbackTransports_pending (cb : MapChangeCallback)
    (s : JsepTransportCollection) :
    (RollbackTransports cb s).1.pending_mids = [] := rfl

end OperationLemmas

section ApplyOpsLemmas

open JsepTransportCollection

theorem applyOp_pending (cb : MapChangeCallback) (s : JsepTransportCollection)
    (op : TransportOp) :
    (applyOp cb s op).pending_mids = s.pending_mids
      ∨ (applyOp cb s op).pending_mids = s.pending_mids ++ [op.mid] := by
  cases op with
  | set mid t =>
    by_cases hc : mapLookup mid s.mid_to_transport = some t
    · left
      simp [applyOp, SetTransportForMid, hc]
    · right
      simp [applyOp, SetTransportForMid, hc, TransportOp.mid]
  | remove mid =>
    left
    rfl

theorem applyOp_lookup_ne (cb : MapChangeCallback) (s : JsepTransportCollection)
    (op : TransportOp) (m : String) (h : op.mid ≠ m) :
    mapLookup m (applyOp cb s op).mid_to_transport
      = mapLookup m s.mid_to_transport := by
  cases op with
  | set mid t =>
    simp only [TransportOp.mid] at h
    by_cases hc : mapLookup mid s.mid_to_transport = some t
    · simp [applyOp, SetTransportForMid, hc]
    · simp only [applyOp, SetTransportForMid, if_neg hc]
      exact mapLookup_mapInsert_ne mid m t _ (Ne.symm h)
  | remove mid =>
    simp only [TransportOp.mid] at h
    exact mapLookup_mapErase_ne mid m _ (Ne.symm h)

theorem applyOps_lookup_ne (cb : MapChangeCallback) (ops : List TransportOp)
    (s : JsepTransportCollection) (m : String) (h : ∀ op ∈ ops, op.mid ≠ m) :
    mapLookup m (applyOps cb s ops).mid_to_transport
      = mapLookup m s.mid_to_transport := by
  induction ops generalizing s with
  | nil => rfl
  | cons op rest ih =>
    rw [applyOps, ih (applyOp cb s op) (fun o ho => h o (List.mem_cons_of_mem _ ho))]
    exact applyOp_lookup_ne cb s op m (h op (List.mem_cons_self op rest))

theorem applyOps_pending_mem (cb : MapChangeCallback) (ops : List TransportOp)
    (s : JsepTransportCollection) (x : String)
    (h : x ∈ (applyOps cb s ops).pending_mids) :
    x ∈ s.pending_mids ∨ ∃ op ∈ ops, op.mid = x := by
  induction ops generalizing s with
  | nil => exact Or.inl h
  | cons op rest ih =>
    rw [applyOps] at h
    rcases ih (applyOp cb s op) h with h1 | h2
    · rcases applyOp_pending cb s op with hp | hp
      · rw [hp] at h1
        exact Or.inl h1
      · rw [hp] at h1
        rcases List.mem_append.mp h1 with h1 | h1
        · exact Or.inl h1
        · exact Or.inr ⟨op, List.mem_cons_self op rest, (List.mem_singleton.mp h1).symm⟩
    · rcases h2 with ⟨o, ho, hm⟩
      exact Or.inr ⟨o, List.mem_cons_of_mem _ ho, hm⟩

theorem applyOp_none_or_pending (cb : MapChangeCallback) (s : JsepTransportCollection)
    (op : TransportOp) (m : String)
    (h : mapLookup m s.mid_to_transport = none ∨ m ∈ s.pending_mids) :
    mapLookup m (applyOp cb s op).mid_to_transport = none
      ∨ m ∈ (applyOp cb s op).pending_mids := by
  cases op with
  | set mid t =>
    by_cases hc : mapLookup mid s.mid_to_transport = some t
    · simpa [applyOp, SetTransportForMid, hc] using h
    · by_cases hm : m = mid
      · subst hm
        right
        simp [applyOp, SetTransportForMid, hc]
      · rcases h with h | h
        · left
          simp only [applyOp, SetTransportForMid, if_neg hc]
          exact (mapLookup_mapInsert_ne mid m t _ hm).trans h
        · right
          simp only [applyOp, SetTransportForMid, if_neg hc]
          exact List.mem_append.mpr (Or.inl h)
  | remove mid =>
    rcases h with h | h
    · left
      exact mapLookup_none_mapErase m mid _ h
    · right
      exact h

theorem applyOps_none_or_pending (cb : MapChangeCallback) (ops : List TransportOp)
    (s : JsepTransportCollection) (m : String)
    (h : mapLookup m s.mid_to_transport = none ∨ m ∈ s.pending_mids) :
    mapLookup m (applyOps cb s ops).mid_to_transport = none
      ∨ m ∈ (applyOps cb s ops).pending_mids := by
  induction ops generalizing s with
  | nil => exact h
  | cons op rest ih =>
    rw [applyOps]
    exact ih (applyOp cb s op) (applyOp_none_or_pending cb s op m h)

theorem applyOp_noDupKeys (cb : MapChangeCallback) (s : JsepTransportCollection)
    (op : TransportOp) (h : NoDupKeys s.mid_to_transport) :
    NoDupKeys (applyOp cb s op).mid_to_transport := by
  cases op with
  | set mid t =>
    by_cases hc : mapLookup mid s.mid_to_transport = some t
    · simpa [applyOp, SetTransportForMid, hc] using h
    · simp only [applyOp, SetTransportForMid, if_neg hc]
      exact NoDupKeys.mapInsert mid t _ h
  | remove mid => exact NoDupKeys.mapErase mid _ h

theorem applyOps_noDupKeys (cb : MapChangeCallback) (ops : List TransportOp)
    (s : JsepTransportCollection) (h : NoDupKeys s.mid_to_transport) :
    NoDupKeys (applyOps cb s ops).mid_to_transport := by
  induction ops generalizing s with
  | nil => exact h
  | cons op rest ih =>
    rw [applyOps]
    exact ih (applyOp cb s op) (applyOp_noDupKeys cb s op h)

end ApplyOpsLemmas

section DestroyTraceLemmas

open JsepTransportCollection

theorem MaybeDestroyJsepTransport_trace (s : JsepTransportCollection) (mid : String) :
    (MaybeDestroyJsepTransport s mid).2
      = List.replicate (s.jsep_transports_by_name.length
          - (MaybeDestroyJsepTransport s mid).1.jsep_transports_by_name.length)
          Event.stateChange
    ∧ (MaybeDestroyJsepTransport s mid).1.jsep_transports_by_name.length
        ≤ s.jsep_transports_by_name.length := by
  cases hl : mapLookup mid s.jsep_transports_by_name with
  | none => simp [MaybeDestroyJsepTransport, hl]
  | some t =>
    by_cases h : TransportInUse s t
    · simp [MaybeDestroyJsepTransport, hl, h]
    · have hlen := mapErase_length mid s.jsep_transports_by_name
        (by rw [hl]; exact fun hx => Option.noConfusion hx)
      simp only [MaybeDestroyJsepTransport, hl, if_neg h]
      refine ⟨?_, by omega⟩
      have h1 : s.jsep_transports_by_name.length
          - (mapErase mid s.jsep_transports_by_name).length = 1 := by omega
      show [Event.stateChange] = _
      rw [h1]
      rfl

theorem runPhase_destroy_trace (s : JsepTransportCollection) (mids : List String) :
    (runPhase (fun st m => MaybeDestroyJsepTransport st m) s mids).2
      = List.replicate (s.jsep_transports_by_name.length
          - (runPhase (fun st m => MaybeDestroyJsepTransport st m) s
              mids).1.jsep_transports_by_name.length)
          Event.stateChange
    ∧ (runPhase (fun st m => MaybeDestroyJsepTransport st m) s
          mids).1.jsep_transports_by_name.length
        ≤ s.jsep_transports_by_name.length := by
  induction mids generalizing s with
  | nil => simp [runPhase]
  | cons m rest ih =>
    obtain ⟨ht1, hl1⟩ := MaybeDestroyJsepTransport_trace s m
    obtain ⟨ht2, hl2⟩ := ih (MaybeDestroyJsepTransport s m).1
    rw [runPhase]
    dsimp only
    refine ⟨?_, by omega⟩
    rw [ht1, ht2, ← List.replicate_add]
    congr 1
    omega

end DestroyTraceLemmas

/-- A bundle group (`cricket::ContentGroup`): `id` models the pointer
identity of the group object (groups are matched by identity, `bundle_group
== group.get()`), `content_names` its ordered mid list.  The group-kind tag
is the constant `GROUP_TYPE_BUNDLE` for every stored group and is not
modelled. -/
structure ContentGroup where
  id : Nat
  content_names : List String
deriving DecidableEq, Repr

/-- Modelled from the spec: `cricket::ContentGroup::RemoveContentName` is
defined outside this unit; per the spec a group is an ordered set of mids and
`DeleteMid` "removes mid from the group", so removal deletes the mid from the
ordered mid list. -/
def ContentGroup.RemoveContentName (g : ContentGroup) (mid : String) : ContentGroup :=
  { g with content_names := g.content_names.filter (fun n => n ≠ mid) }

/-- State of `BundleManager`: the owned list of bundle groups. -/
structure BundleManager where
  bundle_groups : List ContentGroup
deriving DecidableEq, Repr

namespace BundleManager

/-- The `std::find_if` by identity of `BundleManager::DeleteMid` followed by
`RemoveContentName` on the found group; `none` models the `RTC_DCHECK`
contract failure when the handle is not present in the stored list. -/
def deleteMidAux (handle : Nat) (mid : String) :
    List ContentGroup → Option (List ContentGroup)
  | [] => none
  | g :: rest =>
    if g.id = handle then some (g.RemoveContentName mid :: rest)
    else (deleteMidAux handle mid rest).map (fun gs => g :: gs)

/-- `BundleManager::DeleteMid`: removes `mid` from the group identified (by
identity) by `handle`. -/
def DeleteMid (b : BundleManager) (handle : Nat) (mid : String) : Option BundleManager :=
  (deleteMidAux handle mid b.bundle_groups).map (fun gs => { bundle_groups := gs })

/-- The `std::find_if` by identity of `BundleManager::DeleteGroup` followed
by `erase` of the found group; `none` models the `RTC_DCHECK` contract
failure when the handle is not present. -/
def deleteGroupAux (handle : Nat) : List ContentGroup → Option (List ContentGroup)
  | [] => none
  | g :: rest =>
    if g.id = handle then some rest
    else (deleteGroupAux handle rest).map (fun gs => g :: gs)

/-- `BundleManager::DeleteGroup`: erases the group identified by `handle`. -/
def DeleteGroup (b : BundleManager) (handle : Nat) : Option BundleManager :=
  (deleteGroupAux handle b.bundle_groups).map (fun gs => { bundle_groups := gs })

end BundleManager

section BundleLemmas

theorem deleteMidAux_none (handle : Nat) (mid : String) (gs : List ContentGroup)
    (h : ∀ g ∈ gs, g.id ≠ handle) :
    BundleManager.deleteMidAux handle mid gs = none := by
  induction gs with
  | nil => rfl
  | cons g rest ih =>
    rw [BundleManager.deleteMidAux, if_neg (h g (List.mem_cons_self g rest)),
      ih (fun g' hg' => h g' (List.mem_cons_of_mem _ hg'))]
    rfl

theorem deleteGroupAux_none (handle : Nat) (gs : List ContentGroup)
    (h : ∀ g ∈ gs, g.id ≠ handle) :
    BundleManager.deleteGroupAux handle gs = none := by
  induction gs with
  | nil => rfl
  | cons g rest ih =>
    rw [BundleManager.deleteGroupAux, if_neg (h g (List.mem_cons_self g rest)),
      ih (fun g' hg' => h g' (List.mem_cons_of_mem _ hg'))]
    rfl

theorem map_ite_id_of_ne (f : ContentGroup → ContentGroup) (handle : Nat)
    (l : List ContentGroup) (hl : ∀ g ∈ l, g.id ≠ handle) :
    l.map (fun g => if g.id = handle then f g else g) = l := by
  induction l with
  | nil => rfl
  | cons g rest ih =>
    rw [List.map_cons, if_neg (hl g (List.mem_cons_self g rest)),
      ih (fun g' hg' => hl g' (List.mem_cons_of_mem _ hg'))]

theorem deleteMidAux_some (handle : Nat) (mid : String) (gs gs' : List ContentGroup)
    (hnd : (gs.map ContentGroup.id).Nodup)
    (h : BundleManager.deleteMidAux handle mid gs = some gs') :
    gs' = gs.map (fun g => if g.id = handle then g.RemoveContentName mid else g) := by
  induction gs generalizing gs' with
  | nil => simp [BundleManager.deleteMidAux] at h
  | cons g rest ih =>
    rw [List.map_cons, List.nodup_cons] at hnd
    by_cases hg : g.id = handle
    · rw [BundleManager.deleteMidAux, if_pos hg] at h
      rw [List.map_cons, if_pos hg]
      have hrest : ∀ g' ∈ rest, g'.id ≠ handle := by
        intro g' hg' he
        exact hnd.1 (hg ▸ he ▸ List.mem_map_of_mem ContentGroup.id hg')
      rw [map_ite_id_of_ne _ handle rest hrest]
      exact (Option.some_inj.mp h).symm
    · rw [BundleManager.deleteMidAux, if_neg hg] at h
      cases hr : BundleManager.deleteMidAux handle mid rest with
      | none =>
        rw [hr] at h
        simp at h
      | some gs2 =>
        rw [hr] at h
        have h2 : g :: gs2 = gs' := Option.some_inj.mp h
        rw [List.map_cons, if_neg hg, ← ih gs2 hnd.2 hr, ← h2]

end BundleLemmas

section MapInvLemmas

open JsepTransportCollection

theorem SetTransportForMid_jsep (cb : MapChangeCallback) (s : JsepTransportCollection)
    (mid : String) (t : Nat) :
    (SetTransportForMid cb s mid t).1.jsep_transports_by_name
      = s.jsep_transports_by_name := by
  by_cases hc : mapLookup mid s.mid_to_transport = some t
  · simp [SetTransportForMid, hc]
  · simp [SetTransportForMid, hc]

theorem MapInv_SetTransportForMid (cb : MapChangeCallback) (s : JsepTransportCollection)
    (mid : String) (t : Nat) (h : MapInv s)
    (ht : ∃ q ∈ s.jsep_transports_by_name, q.2 = t) :
    MapInv (SetTransportForMid cb s mid t).1 := by
  intro p hp
  rw [SetTransportForMid_jsep]
  by_cases hc : mapLookup mid s.mid_to_transport = some t
  · have hp' : p ∈ s.mid_to_transport := by
      simpa [SetTransportForMid, hc] using hp
    exact h p hp'
  · have hp' : p ∈ mapInsert mid t s.mid_to_transport := by
      simpa [SetTransportForMid, hc] using hp
    rcases mem_mapInsert mid t _ hp' with hq | hq
    · exact h p hq
    · obtain ⟨q, hq1, hq2⟩ := ht
      exact ⟨q, hq1, by rw [hq2, hq]⟩

theorem MapInv_RegisterTransport (s : JsepTransportCollection) (nm : String) (t : Nat)
    (h : MapInv s) (hf : mapContains nm s.jsep_transports_by_name = false) :
    MapInv (RegisterTransport s nm t) := by
  intro p hp
  obtain ⟨q, hq1, hq2⟩ := h p hp
  exact ⟨q, mem_mapInsert_of_not_contains nm t _ hf hq1, hq2⟩

theorem MapInv_RemoveTransportForMid (cb : MapChangeCallback)
    (s : JsepTransportCollection) (mid : String) (h : MapInv s) :
    MapInv (RemoveTransportForMid cb s mid).1 := by
  intro p hp
  exact h p (mem_of_mem_mapErase mid _ hp)

theorem MapInv_MaybeDestroyJsepTransport (s : JsepTransportCollection) (mid : String)
    (h : MapInv s) : MapInv (MaybeDestroyJsepTransport s mid).1 := by
  cases hl : mapLookup mid s.jsep_transports_by_name with
  | none =>
    intro p hp
    simp only [MaybeDestroyJsepTransport, hl] at hp ⊢
    exact h p hp
  | some t =>
    by_cases hu : TransportInUse s t = true
    · intro p hp
      simp only [MaybeDestroyJsepTransport, hl, if_pos hu] at hp ⊢
      exact h p hp
    · intro p hp
      have hp' : p ∈ s.mid_to_transport := by
        simpa [MaybeDestroyJsepTransport, hl, hu] using hp
      obtain ⟨q, hq1, hq2⟩ := h p hp'
      have hqt : q.2 ≠ t := by
        intro he
        apply hu
        unfold TransportInUse
        rw [List.any_eq_true]
        exact ⟨p, hp', by simp [← hq2, he]⟩
      refine ⟨q, ?_, hq2⟩
      have hjs : (MaybeDestroyJsepTransport s mid).1.jsep_transports_by_name
          = mapErase mid s.jsep_transports_by_name := by
        simp [MaybeDestroyJsepTransport, hl, hu]
      rw [hjs]
      exact mem_mapErase_of_lookup_ne mid _ t hq1 hl hqt

theorem MapInv_CommitTransports (s : JsepTransportCollection) (h : MapInv s) :
    MapInv (CommitTransports s).1 := h

theorem runPhase_preserves (P : JsepTransportCollection → Prop)
    (step : JsepTransportCollection → String → JsepTransportCollection × List Event)
    (hstep : ∀ s m, P s → P (step s m).1) (s : JsepTransportCollection)
    (mids : List String) (h : P s) : P (runPhase step s mids).1 := by
  induction mids generalizing s with
  | nil => exact h
  | cons m rest ih => exact ih (step s m).1 (hstep s m h)

theorem MapInv_RollbackTransports (cb : MapChangeCallback)
    (s : JsepTransportCollection) (h : MapInv s) :
    MapInv (RollbackTransports cb s).1 := by
  have h1 := runPhase_preserves MapInv (fun st m => RemoveTransportForMid cb st m)
    (fun st m hp => MapInv_RemoveTransportForMid cb st m hp) s s.pending_mids h
  have h2 := runPhase_preserves MapInv (fun st m => MaybeDestroyJsepTransport st m)
    (fun st m hp => MapInv_MaybeDestroyJsepTransport st m hp) _
    (runPhase (fun st m => RemoveTransportForMid cb st m) s
        s.pending_mids).1.pending_mids h1
  intro p hp
  exact h2 p hp

theorem MapInv_DestroyAllTransports (cb : MapChangeCallback)
    (s : JsepTransportCollection) (h : s.mid_to_transport = []) :
    MapInv (DestroyAllTransports cb s).1 := by
  intro p hp
  rw [show (DestroyAllTransports cb s).1.mid_to_transport = s.mid_to_transport from rfl,
    h] at hp
  simp at hp

end MapInvLemmas

/-- A map-change callback that rejects every change. -/
def cbFalse : MapChangeCallback := fun _ _ => false

/-- Example registry: transport 0 owned under the name "t", referenced by mid
"a", no pending mids. -/
def exRegistry : JsepTransportCollection :=
  { jsep_transports_by_name := [("t", 0)],
    mid_to_transport := [("a", 0)],
    pending_mids := [] }

/-- Example registry: transport 0 owned under the name "t", referenced by the
two mids "a" and "b". -/
def exShared : JsepTransportCollection :=
  { jsep_transports_by_name := [("t", 0)],
    mid_to_transport := [("a", 0), ("b", 0)],
    pending_mids := [] }

/-- Example registry: transport 0 owned under the name "t", referenced by no
mid; "x" pending. -/
def exUnreferenced : JsepTransportCollection :=
  { jsep_transports_by_name := [("t", 0)],
    mid_to_transport := [],
    pending_mids := ["x"] }

/-- Example bundle-group list: group 1 = [audio, video], group 2 = [data]. -/
def exBundles : BundleManager :=
  { bundle_groups := [⟨1, ["audio", "video"]⟩, ⟨2, ["data"]⟩] }

/-- Claim C1 — counterexample.  The claim says that for every registry
state, after any mix of `SetTransportForMid`/`RemoveTransportForMid` calls
made after the last commit/rollback boundary, `RollbackTransports` restores
`mid_to_transport_` to its prior state.  This fails:
`RemoveTransportForMid` does not record the mid in `pending_mids_`, so a
removal of an established association is not undone.  Concretely, from
`mid_to_transport = [("a", 0)]` with an empty pending log, the sequence
`[RemoveTransportForMid "a"]` followed by `RollbackTransports` leaves
`mid_to_transport` empty. -/
theorem rollback_restore_counterexample :
    ¬ (∀ m, mapLookup m (JsepTransportCollection.RollbackTransports cbTrue
          (applyOps cbTrue exRegistry [TransportOp.remove "a"])).1.mid_to_transport
        = mapLookup m exRegistry.mid_to_transport) := by
  intro h
  have h1 := h "a"
  revert h1
  decide

/-- Claim C1 (amended): for every registry state with an empty pending log
(a fresh commit/rollback boundary) and unique `mid_to_transport_` keys, and
every sequence of `SetTransportForMid`/`RemoveTransportForMid` calls each of
which touches a mid with no association at the start of the sequence,
calling `RollbackTransports` afterwards leaves `mid_to_transport_` equal
(entry by entry) to its state immediately before the sequence began. -/
theorem rollback_restores_fresh_mids (cb : MapChangeCallback)
    (s : JsepTransportCollection) (ops : List TransportOp)
    (h0 : s.pending_mids = []) (hnd : NoDupKeys s.mid_to_transport)
    (hops : ∀ op ∈ ops, mapLookup op.mid s.mid_to_transport = none) (m : String) :
    mapLookup m (JsepTransportCollection.RollbackTransports cb
        (applyOps cb s ops)).1.mid_to_transport
      = mapLookup m s.mid_to_transport := by
  have hnd' : NoDupKeys (applyOps cb s ops).mid_to_transport :=
    applyOps_noDupKeys cb ops s hnd
  rw [RollbackTransports_mid_to_transport, mapLookup_eraseAll _ _ m hnd']
  by_cases hp : m ∈ (applyOps cb s ops).pending_mids
  · rw [if_pos hp]
    rcases applyOps_pending_mem cb ops s m hp with hmem | ⟨op, hop, hmid⟩
    · rw [h0] at hmem
      simp at hmem
    · exact (hmid ▸ hops op hop).symm
  · rw [if_neg hp]
    by_cases hm : ∃ op ∈ ops, op.mid = m
    · rcases hm with ⟨op, hop, hmid⟩
      have hnone : mapLookup m s.mid_to_transport = none := hmid ▸ hops op hop
      rcases applyOps_none_or_pending cb ops s m (Or.inl hnone) with h1 | h1
      · rw [h1, hnone]
      · exact absurd h1 hp
    · push_neg at hm
      exact applyOps_lookup_ne cb ops s m hm

/-- Witness for `rollback_restores_fresh_mids` at a concrete input:
mid "b" is fresh, so the sequence set "b", remove "b" is fully rolled back. -/
theorem rollback_restores_fresh_mids_witness :
    mapLookup "b" (JsepTransportCollection.RollbackTransports cbTrue
          (applyOps cbTrue exRegistry
            [TransportOp.set "b" 5, TransportOp.remove "b"])).1.mid_to_transport
        = mapLookup "b" exRegistry.mid_to_transport
    ∧ exRegistry.pending_mids = [] :=
  ⟨rollback_restores_fresh_mids cbTrue exRegistry
      [TransportOp.set "b" 5, TransportOp.remove "b"] rfl (by decide) (by decide) "b",
   rfl⟩

/-- Claim C2 — counterexample.  The claimed invariant (every value of
`mid_to_transport_` is a transport present in `jsep_transports_by_name_`) is
not preserved by `DestroyAllTransports`: it clears
`jsep_transports_by_name_` but leaves `mid_to_transport_` intact, so from
the valid state with transport 0 under "t" and mid "a" ↦ 0, the invariant is
broken afterwards. -/
theorem map_invariant_counterexample :
    MapInv exRegistry
    ∧ ¬ MapInv (JsepTransportCollection.DestroyAllTransports cbTrue exRegistry).1 :=
  ⟨by decide, by decide⟩

/-- Claim C2 (amended): the invariant is preserved by `SetTransportForMid`
when the transport passed is currently owned, by `RegisterTransport` when the
name is not already registered (an overwrite can orphan references), and by
`RemoveTransportForMid`, `MaybeDestroyJsepTransport`, `CommitTransports` and
`RollbackTransports` unconditionally; `DestroyAllTransports` only guarantees
it when `mid_to_transport_` is empty, since it never clears that map. -/
theorem map_invariant_preservation (cb : MapChangeCallback)
    (s : JsepTransportCollection) (mid nm : String) (t : Nat) :
    (MapInv s → (∃ q ∈ s.jsep_transports_by_name, q.2 = t) →
        MapInv (JsepTransportCollection.SetTransportForMid cb s mid t).1)
    ∧ (MapInv s → mapContains nm s.jsep_transports_by_name = false →
        MapInv (JsepTransportCollection.RegisterTransport s nm t))
    ∧ (MapInv s → MapInv (JsepTransportCollection.RemoveTransportForMid cb s mid).1)
    ∧ (MapInv s → MapInv (JsepTransportCollection.MaybeDestroyJsepTransport s mid).1)
    ∧ (MapInv s → MapInv (JsepTransportCollection.CommitTransports s).1)
    ∧ (MapInv s → MapInv (JsepTransportCollection.RollbackTransports cb s).1)
    ∧ (s.mid_to_transport = [] →
        MapInv (JsepTransportCollection.DestroyAllTransports cb s).1) :=
  ⟨fun h ht => MapInv_SetTransportForMid cb s mid t h ht,
   fun h hf => MapInv_RegisterTransport s nm t h hf,
   fun h => MapInv_RemoveTransportForMid cb s mid h,
   fun h => MapInv_MaybeDestroyJsepTransport s mid h,
   fun h => MapInv_CommitTransports s h,
   fun h => MapInv_RollbackTransports cb s h,
   fun h => MapInv_DestroyAllTransports cb s h⟩

/-- Witness for `map_invariant_preservation`, applying every component at a
concrete registry. -/
theorem map_invariant_preservation_witness :
    MapInv (JsepTransportCollection.SetTransportForMid cbTrue exRegistry "b" 0).1
    ∧ MapInv (JsepTransportCollection.RegisterTransport exRegistry "u" 0)
    ∧ MapInv (JsepTransportCollection.RemoveTransportForMid cbTrue exRegistry "b").1
    ∧ MapInv (JsepTransportCollection.MaybeDestroyJsepTransport exRegistry "b").1
    ∧ MapInv (JsepTransportCollection.CommitTransports exRegistry).1
    ∧ MapInv (JsepTransportCollection.RollbackTransports cbTrue exRegistry).1
    ∧ MapInv (JsepTransportCollection.DestroyAllTransports cbTrue exUnreferenced).1 :=
  ⟨(map_invariant_preservation cbTrue exRegistry "b" "u" 0).1 (by decide) (by decide),
   (map_invariant_preservation cbTrue exRegistry "b" "u" 0).2.1 (by decide) (by decide),
   (map_invariant_preservation cbTrue exRegistry "b" "u" 0).2.2.1 (by decide),
   (map_invariant_preservation cbTrue exRegistry "b" "u" 0).2.2.2.1 (by decide),
   (map_invariant_preservation cbTrue exRegistry "b" "u" 0).2.2.2.2.1 (by decide),
   (map_invariant_preservation cbTrue exRegistry "b" "u" 0).2.2.2.2.2.1 (by decide),
   (map_invariant_preservation cbTrue exUnreferenced "b" "u" 0).2.2.2.2.2.2 rfl⟩

section TransportClaims

open JsepTransportCollection

/-- Claim C3: `SetTransportForMid(mid, t)` when `mid` is already associated
with exactly `t` returns success and leaves the whole state unchanged with no
callback; hence a second identical call is a no-op success that does not
append to `pending_mids_`. -/
theorem set_transport_idempotent (cb : MapChangeCallback)
    (s : JsepTransportCollection) (mid : String) (t : Nat) :
    (mapLookup mid s.mid_to_transport = some t →
        SetTransportForMid cb s mid t = (s, [], true))
    ∧ SetTransportForMid cb (SetTransportForMid cb s mid t).1 mid t
        = ((SetTransportForMid cb s mid t).1, [], true) := by
  have hfirst : ∀ _h : mapLookup mid s.mid_to_transport = some t,
      SetTransportForMid cb s mid t = (s, [], true) := fun h => by
    simp [SetTransportForMid, h]
  refine ⟨hfirst, ?_⟩
  have hlook : mapLookup mid (SetTransportForMid cb s mid t).1.mid_to_transport
      = some t := by
    by_cases hc : mapLookup mid s.mid_to_transport = some t
    · rw [hfirst hc]
      exact hc
    · simp [SetTransportForMid, hc]
  rw [SetTransportForMid, if_pos hlook]

/-- Witness for `set_transport_idempotent`: mid "a" already maps to 0. -/
theorem set_transport_idempotent_witness :
    mapLookup "a" exRegistry.mid_to_transport = some 0
    ∧ SetTransportForMid cbTrue exRegistry "a" 0 = (exRegistry, [], true) :=
  ⟨by decide, (set_transport_idempotent cbTrue exRegistry "a" 0).1 (by decide)⟩

/-- Claim C4: when `mid` is not already associated with exactly `t`,
`SetTransportForMid` appends `mid` to `pending_mids_`, inserts or updates the
`mid_to_transport_` entry, invokes the callback with `(mid, t)` and returns
its boolean verbatim; the state change is kept even when the callback
returns false (the conclusions hold for every callback, in particular a
rejecting one — no automatic undo). -/
theorem set_transport_new_association (cb : MapChangeCallback)
    (s : JsepTransportCollection) (mid : String) (t : Nat)
    (h : mapLookup mid s.mid_to_transport ≠ some t) :
    (SetTransportForMid cb s mid t).1.pending_mids = s.pending_mids ++ [mid]
    ∧ (SetTransportForMid cb s mid t).1.mid_to_transport
        = mapInsert mid t s.mid_to_transport
    ∧ mapLookup mid (SetTransportForMid cb s mid t).1.mid_to_transport = some t
    ∧ (SetTransportForMid cb s mid t).1.jsep_transports_by_name
        = s.jsep_transports_by_name
    ∧ (SetTransportForMid cb s mid t).2.1
        = [Event.mapChange mid (some t) (cb mid (some t))]
    ∧ (SetTransportForMid cb s mid t).2.2 = cb mid (some t) := by
  refine ⟨?_, ?_, ?_, ?_, ?_, ?_⟩ <;> simp [SetTransportForMid, h]

/-- Witness for `set_transport_new_association` with a rejecting callback:
the entry and the pending append are kept and `false` is returned. -/
theorem set_transport_new_association_witness :
    mapLookup "b" exRegistry.mid_to_transport ≠ some 1
    ∧ (SetTransportForMid cbFalse exRegistry "b" 1).1.pending_mids
        = exRegistry.pending_mids ++ ["b"]
    ∧ mapLookup "b" (SetTransportForMid cbFalse exRegistry "b" 1).1.mid_to_transport
        = some 1
    ∧ (SetTransportForMid cbFalse exRegistry "b" 1).2.2 = false :=
  ⟨by decide,
   (set_transport_new_association cbFalse exRegistry "b" 1 (by decide)).1,
   (set_transport_new_association cbFalse exRegistry "b" 1 (by decide)).2.2.1,
   (set_transport_new_association cbFalse exRegistry "b" 1 (by decide)).2.2.2.2.2⟩

/-- Claim C5: `RollbackTransports` equals the two-phase composition: first
`RemoveTransportForMid` for every recorded pending mid in order, then
`MaybeDestroyJsepTransport` for every pending mid in the same order, and
finally `pending_mids_` is cleared. -/
theorem rollback_two_phase (cb : MapChangeCallback) (s : JsepTransportCollection) :
    RollbackTransports cb s
      = ({ (runPhase (fun st m => MaybeDestroyJsepTransport st m)
              (runPhase (fun st m => RemoveTransportForMid cb st m) s s.pending_mids).1
              s.pending_mids).1 with pending_mids := [] },
         (runPhase (fun st m => RemoveTransportForMid cb st m) s s.pending_mids).2
           ++ (runPhase (fun st m => MaybeDestroyJsepTransport st m)
                (runPhase (fun st m => RemoveTransportForMid cb st m) s s.pending_mids).1
                s.pending_mids).2) := by
  unfold RollbackTransports
  dsimp only
  rw [show (runPhase (fun st m => RemoveTransportForMid cb st m) s
      s.pending_mids).1.pending_mids = s.pending_mids from by rw [runPhase_remove_fst]]

/-- Claim C7: `CommitTransports` clears `pending_mids_` and changes nothing
else, invoking no callback; a `RollbackTransports` immediately after it
leaves the whole registry state unchanged and emits no event. -/
theorem commit_then_rollback (cb : MapChangeCallback) (s : JsepTransportCollection) :
    (CommitTransports s).1.mid_to_transport = s.mid_to_transport
    ∧ (CommitTransports s).1.jsep_transports_by_name = s.jsep_transports_by_name
    ∧ (CommitTransports s).1.pending_mids = []
    ∧ (CommitTransports s).2 = []
    ∧ RollbackTransports cb (CommitTransports s).1 = ((CommitTransports s).1, []) :=
  ⟨rfl, rfl, rfl, rfl, rfl⟩

/-- Claim C6: `MaybeDestroyJsepTransport(mid)` is a no-op when no owned
transport is registered under the name `mid`, and a no-op when the registered
transport is still referenced (`TransportInUse`); otherwise it erases the
transport and fires `state_change_callback_` exactly once.  Consequently,
when mids `A ≠ B` both reference transport `T`, removing `A`'s association
leaves `T` in use, and a destruction check against any name still registered
to `T` is a no-op. -/
theorem maybe_destroy_spec (cb : MapChangeCallback) (s : JsepTransportCollection)
    (mid A B : String) (T t : Nat) :
    (mapLookup mid s.jsep_transports_by_name = none →
        MaybeDestroyJsepTransport s mid = (s, []))
    ∧ (mapLookup mid s.jsep_transports_by_name = some t →
        TransportInUse s t = true →
        MaybeDestroyJsepTransport s mid = (s, []))
    ∧ (mapLookup mid s.jsep_transports_by_name = some t →
        TransportInUse s t = false →
        MaybeDestroyJsepTransport s mid
          = ({ s with jsep_transports_by_name := mapErase mid s.jsep_transports_by_name },
             [Event.stateChange]))
    ∧ (mapLookup A s.mid_to_transport = some T →
        mapLookup B s.mid_to_transport = some T → A ≠ B →
        TransportInUse (RemoveTransportForMid cb s A).1 T = true
        ∧ (mapLookup mid (RemoveTransportForMid cb s A).1.jsep_transports_by_name
              = some T →
            MaybeDestroyJsepTransport (RemoveTransportForMid cb s A).1 mid
              = ((RemoveTransportForMid cb s A).1, []))) := by
  refine ⟨?_, ?_, ?_, ?_⟩
  · intro h
    simp [MaybeDestroyJsepTransport, h]
  · intro hl hu
    simp [MaybeDestroyJsepTransport, hl, hu]
  · intro hl hu
    simp [MaybeDestroyJsepTransport, hl, hu]
  · intro hA hB hAB
    have hBkeep : mapLookup B (RemoveTransportForMid cb s A).1.mid_to_transport
        = some T := by
      show mapLookup B (mapErase A s.mid_to_transport) = some T
      rw [mapLookup_mapErase_ne A B _ (Ne.symm hAB)]
      exact hB
    have hin : TransportInUse (RemoveTransportForMid cb s A).1 T = true := by
      unfold TransportInUse
      rw [List.any_eq_true]
      exact ⟨(B, T), mapLookup_some_mem hBkeep, by simp⟩
    refine ⟨hin, fun hmid => ?_⟩
    rw [RemoveTransportForMid_jsep] at hmid
    simp [MaybeDestroyJsepTransport, hmid, hin]

/-- Witness for `maybe_destroy_spec`, applying every component: destruction
check on an absent name, on an in-use transport, on an unreferenced transport
(destroyed, one state-change event), and the shared-transport scenario after
removing one of two referencing mids. -/
theorem maybe_destroy_spec_witness :
    MaybeDestroyJsepTransport exShared "x" = (exShared, [])
    ∧ MaybeDestroyJsepTransport exShared "t" = (exShared, [])
    ∧ MaybeDestroyJsepTransport exUnreferenced "t"
        = ({ exUnreferenced with jsep_transports_by_name := [] }, [Event.stateChange])
    ∧ TransportInUse (RemoveTransportForMid cbTrue exShared "a").1 0 = true
    ∧ MaybeDestroyJsepTransport (RemoveTransportForMid cbTrue exShared "a").1 "t"
        = ((RemoveTransportForMid cbTrue exShared "a").1, []) := by
  have H := (maybe_destroy_spec cbTrue exShared "t" "a" "b" 0 0).2.2.2
    (by decide) (by decide) (by decide)
  refine ⟨(maybe_destroy_spec cbTrue exShared "x" "a" "b" 0 0).1 (by decide),
    (maybe_destroy_spec cbTrue exShared "t" "a" "b" 0 0).2.1 (by decide) (by decide),
    ?_, H.1, H.2 (by decide)⟩
  have H3 := (maybe_destroy_spec cbTrue exUnreferenced "t" "a" "b" 0 0).2.2.1
    (by decide) (by decide)
  rw [H3]
  rfl

end TransportClaims

/-- Claim C8: `DeleteMid(group, mid)` removes only `mid` from the group
identified (by identity) by the handle and leaves every other stored group
unchanged; `DeleteMid` and `DeleteGroup` with a handle not present in the
current collection fail the contract check (`RTC_DCHECK`) rather than
silently no-oping. -/
theorem bundle_delete_identity_scoping (b : BundleManager) (handle : Nat)
    (mid : String) :
    ((∀ g ∈ b.bundle_groups, g.id ≠ handle) →
        b.DeleteMid handle mid = none ∧ b.DeleteGroup handle = none)
    ∧ ((b.bundle_groups.map ContentGroup.id).Nodup →
        ∀ b', b.DeleteMid handle mid = some b' →
          b'.bundle_groups
            = b.bundle_groups.map
                (fun g => if g.id = handle then g.RemoveContentName mid else g)) := by
  constructor
  · intro h
    constructor
    · unfold BundleManager.DeleteMid
      rw [deleteMidAux_none handle mid _ h]
      rfl
    · unfold BundleManager.DeleteGroup
      rw [deleteGroupAux_none handle _ h]
      rfl
  · intro hnd b' h
    unfold BundleManager.DeleteMid at h
    cases hr : BundleManager.deleteMidAux handle mid b.bundle_groups with
    | none =>
      rw [hr] at h
      simp at h
    | some gs =>
      rw [hr] at h
      have h2 : ({ bundle_groups := gs } : BundleManager) = b' := Option.some_inj.mp h
      rw [← h2]
      exact deleteMidAux_some handle mid _ gs hnd hr

/-- Witness for `bundle_delete_identity_scoping`: a stale handle fails both
deletions; deleting "video" from group 1 changes only group 1. -/
theorem bundle_delete_identity_scoping_witness :
    BundleManager.DeleteMid exBundles 5 "audio" = none
    ∧ BundleManager.DeleteGroup exBundles 5 = none
    ∧ ({ bundle_groups := [⟨1, ["audio"]⟩, ⟨2, ["data"]⟩] } : BundleManager).bundle_groups
        = exBundles.bundle_groups.map
            (fun g => if g.id = 1 then g.RemoveContentName "video" else g) :=
  ⟨((bundle_delete_identity_scoping exBundles 5 "audio").1 (by decide)).1,
   ((bundle_delete_identity_scoping exBundles 5 "audio").1 (by decide)).2,
   (bundle_delete_identity_scoping exBundles 1 "video").2 (by decide) _ (by decide)⟩

section ImplicitClaims

open JsepTransportCollection

/-- Claim C9 (implicit): `SetTransportForMid` requires a non-null transport —
the checked form fails its contract on `none` instead of clearing the
association — and `RemoveTransportForMid` is the only operation that removes
a `mid_to_transport_` association: `RegisterTransport`, `SetTransportForMid`,
`CommitTransports`, `DestroyAllTransports` and `MaybeDestroyJsepTransport`
keep every existing mid present, while `RemoveTransportForMid` does remove
the given mid's association. -/
theorem set_null_contract_and_remove_uniqueness (cb : MapChangeCallback)
    (s : JsepTransportCollection) (mid m k : String) (t : Nat) :
    SetTransportForMidChecked cb s mid none = none
    ∧ (mapContains m s.mid_to_transport = true →
        mapContains m (RegisterTransport s k t).mid_to_transport = true
        ∧ mapContains m (SetTransportForMid cb s k t).1.mid_to_transport = true
        ∧ mapContains m (CommitTransports s).1.mid_to_transport = true
        ∧ mapContains m (DestroyAllTransports cb s).1.mid_to_transport = true
        ∧ mapContains m (MaybeDestroyJsepTransport s k).1.mid_to_transport = true)
    ∧ (NoDupKeys s.mid_to_transport →
        mapLookup mid (RemoveTransportForMid cb s mid).1.mid_to_transport = none) := by
  refine ⟨rfl, fun h => ⟨h, ?_, h, h, ?_⟩, fun h => mapLookup_mapErase_self mid _ h⟩
  · by_cases hc : mapLookup k s.mid_to_transport = some t
    · simpa [SetTransportForMid, hc] using h
    · simp only [SetTransportForMid, if_neg hc]
      exact mapContains_mapInsert h
  · rw [MaybeDestroyJsepTransport_mid_to_transport]
    exact h

/-- Witness for `set_null_contract_and_remove_uniqueness`: a null transport
fails the contract, `DestroyAllTransports` keeps mid "a" associated, and
`RemoveTransportForMid` removes it. -/
theorem set_null_contract_and_remove_uniqueness_witness :
    SetTransportForMidChecked cbTrue exRegistry "a" none = none
    ∧ mapContains "a" (DestroyAllTransports cbTrue exRegistry).1.mid_to_transport = true
    ∧ mapLookup "a" (RemoveTransportForMid cbTrue exRegistry "a").1.mid_to_transport
        = none :=
  ⟨(set_null_contract_and_remove_uniqueness cbTrue exRegistry "a" "a" "k" 0).1,
   ((set_null_contract_and_remove_uniqueness cbTrue exRegistry "a" "a" "k" 0).2.1
      (by decide)).2.2.2.1,
   (set_null_contract_and_remove_uniqueness cbTrue exRegistry "a" "a" "k" 0).2.2
      (by decide)⟩

/-- Claim C10 (implicit): the rollback trace is one `map_change_callback_`
invocation with a null transport per occurrence of a mid in `pending_mids_`
(duplicates included, in recorded order), followed by exactly one
`state_change_callback_` invocation per transport actually destroyed (the
decrease of `jsep_transports_by_name_`). -/
theorem rollback_trace_counts (cb : MapChangeCallback) (s : JsepTransportCollection) :
    (RollbackTransports cb s).2
      = s.pending_mids.map (fun m => Event.mapChange m none (cb m none))
        ++ List.replicate
            (s.jsep_transports_by_name.length
              - (RollbackTransports cb s).1.jsep_transports_by_name.length)
            Event.stateChange := by
  obtain ⟨ht, _⟩ := runPhase_destroy_trace
    (runPhase (fun st m => RemoveTransportForMid cb st m) s s.pending_mids).1
    ((runPhase (fun st m => RemoveTransportForMid cb st m) s
        s.pending_mids).1.pending_mids)
  have hj : (runPhase (fun st m => RemoveTransportForMid cb st m) s
      s.pending_mids).1.jsep_transports_by_name = s.jsep_transports_by_name := by
    rw [runPhase_remove_fst]
  unfold RollbackTransports
  dsimp only
  rw [runPhase_remove_trace, ht, hj]

end ImplicitClaims
